import Mathlib

/-!
Shallow embedding of `principled_material_layers/material_layer.py`
(the `MaterialLayer` / `MaterialLayerRef` property groups) together with
the minimal collaborator contracts the module consumes.  Definitions are
translated from the Python source; collaborators that live outside this
module (the layer stack lookup, the image pool, the naming helper, the
channel record helpers) are modelled from the specification and are
marked as such in their doc comments.
-/

/-- Python exception kinds raised by the translated code paths. -/
inductive PyErr where
  | runtimeError
  | valueError
  | typeError
  | attributeError
  | recursionError
deriving DecidableEq, Repr

/-- A channel record as seen by `MaterialLayer`.  The real `Channel`
class lives in `channel.py` (outside the embedded module); only the
fields the layer code reads are modelled: name, socket type string,
enabled flag and baked state. -/
structure BasicChannel where
  name : String
  socketType : String := "FLOAT"
  enabled : Bool := true
  isBaked : Bool := false
deriving DecidableEq, Repr

/-- A node-tree output socket (`NodeSocketInterface`): its name, its
type string, and the type-specific settings `_ensure_node_tree_output`
writes (`hide_value` for vectors, the `[0,1]` clamp for factor sockets,
and the stack-supplied default value). -/
structure Socket where
  name : String
  sockType : String
  hideValue : Bool := false
  clamped01 : Bool := false
  defaultValue : Option Int := none
deriving DecidableEq, Repr

/-- The layer's owned shader node tree: its datablock name, its output
sockets in order, and the names of the nodes added to it. -/
structure NodeTree where
  name : String
  outputs : List Socket := []
  nodes : List String := []
deriving DecidableEq, Repr

/-- `MaterialLayerRef`: a by-identifier handle to a layer.  `name`
stores the referenced layer's identifier; the empty string is the unset
ref. -/
structure MaterialLayerRef where
  name : String := ""
deriving DecidableEq, Repr

/-- `MaterialLayer`: one layer slot.  Field defaults mirror the
property definitions in the source (`name` defaults to "Layer",
`identifier` to the empty string, `enabled` to true, `opacity` to 1,
`layer_type` to MATERIAL_PAINT, `image_channel` to -1).  Opacity only
ever takes the value 1 in the embedded operations, so it is modelled as
a natural number. -/
structure MaterialLayer where
  name : String := "Layer"
  identifier : String := ""
  enabled : Bool := true
  opacity : Nat := 1
  layerType : String := "MATERIAL_PAINT"
  channels : List BasicChannel := []
  activeChannelIndex : Nat := 0
  previewMaterial : Option Nat := none
  nodeTree : Option NodeTree := none
  nodeMask : Option NodeTree := none
  image : Option Nat := none
  imageChannel : Int := -1
  isBaked : Bool := false
  parent : MaterialLayerRef := {}
  children : List MaterialLayerRef := []
deriving DecidableEq, Repr

/-- The owning layer stack, as far as the layer module consumes it: the
ordered collection of layer slots and the per-channel default values
(`get_channel_default_value`). -/
structure LayerStack where
  layers : List MaterialLayer := []
  channelDefaults : List (String × Int) := []
deriving DecidableEq, Repr

/-- `is_initialized` getter: true iff the identifier is non-empty. -/
def isInitialized (l : MaterialLayer) : Bool :=
  l.identifier != ""

/-- `MaterialLayer.__eq__` restricted to two layers: identifier
equality. -/
def layerEq (self other : MaterialLayer) : Bool :=
  other.identifier == self.identifier

/-- Truthiness of a `MaterialLayerRef`: set iff its stored identifier is
non-empty. -/
def refIsSet (r : MaterialLayerRef) : Bool :=
  r.name != ""

/-- Modelled from the spec: the stack's `get_layer_by_id(identifier)`
lookup (the layer-stack class is an external collaborator).  Returns the
first layer slot whose identifier matches. -/
def getLayerById (st : LayerStack) (ident : String) : Option MaterialLayer :=
  st.layers.find? (fun x => x.identifier == ident)

/-- `MaterialLayerRef.resolve`: raises on an empty ref, otherwise looks
the identifier up in the owning stack (a dangling ref yields `none`
without raising). -/
def resolveRef (st : LayerStack) (r : MaterialLayerRef) :
    Except PyErr (Option MaterialLayer) :=
  if r.name = "" then .error .runtimeError
  else .ok (getLayerById st r.name)

/-- Replace the element at an index, leaving the list unchanged when the
index is out of range. -/
def listModify (f : α → α) : Nat → List α → List α
  | _, [] => []
  | 0, a :: as => f a :: as
  | n + 1, a :: as => a :: listModify f n as

/-- Index of the first element satisfying the predicate (the semantics
of Python's `list.index` and of `bpy` collection `find`). -/
def listFindIdx (p : α → Bool) : List α → Option Nat
  | [] => none
  | a :: as => if p a then some 0 else (listFindIdx p as).map (· + 1)

/-- Apply a function to the layer slot at index `i` of the stack. -/
def modifyLayer (st : LayerStack) (i : Nat) (f : MaterialLayer → MaterialLayer) :
    LayerStack :=
  { st with layers := listModify f i st.layers }

/-- The `:02` format used for name suffixes: zero-padded to two
digits. -/
def pad2 (n : Nat) : String :=
  if n < 10 then "0" ++ Nat.repr n else Nat.repr n

/-- One candidate of the collision-suffix loop: `basename.NN`. -/
def suffixedName (base : String) (k : Nat) : String :=
  base ++ "." ++ pad2 k

/-- The suffix loop of `_get_unique_name`: starting at `k`, return the
first `basename.NN` not already used as a layer name.  The loop in the
source is unbounded; `fuel` is a sufficient iteration budget (at most
`names.length` candidates can be taken). -/
def firstFreeSuffix (names : List String) (base : String) : Nat → Nat → String
  | k, 0 => suffixedName base k
  | k, fuel + 1 =>
    if suffixedName base k ∈ names then firstFreeSuffix names base (k + 1) fuel
    else suffixedName base k

/-- `_get_unique_name`: if another initialized layer (compared by
`__eq__`, i.e. by identifier) holds the same name, search for the first
free `name.NN` suffix (membership is checked against every slot's name,
initialized or not); otherwise the name is returned unaltered. -/
def getUniqueName (layers : List MaterialLayer) (self : MaterialLayer) : String :=
  let same := layers.find? (fun x =>
    x.name == self.name && !(layerEq self x) && isInitialized x)
  match same with
  | some _ => firstFreeSuffix (layers.map (·.name)) self.name 1 (layers.length + 1)
  | none => self.name

/-- `_update_name` (the `name` property's update callback): rename to
the unique variant when the current name collides; in either case the
node tree (when present) is renamed to `_node_tree_name` — directly in
the no-collision branch, and through the re-triggered update when the
name was changed. -/
def updateNameAt (st : LayerStack) (i : Nat) : LayerStack :=
  match st.layers[i]? with
  | none => st
  | some self =>
    let unique := getUniqueName st.layers self
    if unique ≠ self.name then
      modifyLayer st i (fun l =>
        let l := { l with name := unique }
        match l.nodeTree with
        | some nt => { l with nodeTree := some { nt with name := "." ++ l.name } }
        | none => l)
    else
      modifyLayer st i (fun l =>
        match l.nodeTree with
        | some nt => { l with nodeTree := some { nt with name := "." ++ l.name } }
        | none => l)

/-- Assignment to the `name` property: store the value, then run the
update callback. -/
def setNameAt (st : LayerStack) (i : Nat) (n : String) : LayerStack :=
  updateNameAt (modifyLayer st i (fun l => { l with name := n })) i

/-- Modelled from the spec: the stack's `get_channel_default_value`
collaborator, a per-channel-name configured default. -/
def getChannelDefaultValue (st : LayerStack) (ch : BasicChannel) : Option Int :=
  (st.channelDefaults.find? (fun p => p.1 == ch.name)).map (·.2)

/-- The socket mutations `_ensure_node_tree_output` performs after the
socket exists: hide the value widget of vector sockets, clamp factor
sockets to `[0,1]`, and write the stack's configured default value when
one exists (`group_output_link_default` adds helper links only and does
not change the socket record). -/
def applySocketSettings (st : LayerStack) (ch : BasicChannel) (s : Socket) : Socket :=
  let s :=
    if ch.socketType == "VECTOR" then { s with hideValue := true }
    else if ch.socketType == "FLOAT_FACTOR" then { s with clamped01 := true }
    else s
  match getChannelDefaultValue st ch with
  | some v => { s with defaultValue := some v }
  | none => s

/-- `_ensure_node_tree_output`: retype an existing output of the same
name if needed, or append a new one; then apply the type-specific
settings and default value to that socket. -/
def ensureNodeTreeOutput (st : LayerStack) (nt : NodeTree) (ch : BasicChannel) :
    NodeTree :=
  match listFindIdx (fun s => s.name == ch.name) nt.outputs with
  | some i =>
    { nt with outputs := listModify (fun s =>
        let s := if s.sockType != ch.socketType then { s with sockType := ch.socketType } else s
        applySocketSettings st ch s) i nt.outputs }
  | none =>
    { nt with outputs := nt.outputs ++
        [applySocketSettings st ch { name := ch.name, sockType := ch.socketType }] }

/-- Modelled from the spec: `Channel.init_from_channel` copies the
template channel's data onto the freshly added collection entry. -/
def initFromChannel (ch : BasicChannel) : BasicChannel :=
  { name := ch.name, socketType := ch.socketType, enabled := ch.enabled,
    isBaked := false }

/-- Result of `add_channel`: the mutated layer, the returned channel
(when the call returns normally) and the raised exception (when it does
not).  The state reflects every mutation performed before a raise. -/
structure AddChannelResult where
  layer : MaterialLayer
  ret : Option BasicChannel := none
  err : Option PyErr := none
deriving DecidableEq, Repr

/-- `add_channel`: return the existing channel unchanged when the name
is already present (warning only); otherwise append a copy of the
template, ensure a matching node-tree output and refresh the preview
(which never changes the preview handle itself).  Accessing
`node_tree.outputs` on a layer without a node tree raises after the
channel list was already extended. -/
def addChannel (st : LayerStack) (l : MaterialLayer) (ch : BasicChannel) :
    AddChannelResult :=
  match l.channels.find? (fun x => x.name == ch.name) with
  | some existing => { layer := l, ret := some existing }
  | none =>
    let added := initFromChannel ch
    let l := { l with channels := l.channels ++ [added] }
    match l.nodeTree with
    | none => { layer := l, err := some .attributeError }
    | some nt =>
      { layer := { l with nodeTree := some (ensureNodeTreeOutput st nt ch) },
        ret := some added }

/-- Result of a layer-level operation with no return value. -/
structure OpResult where
  layer : MaterialLayer
  err : Option PyErr := none
deriving DecidableEq, Repr

/-- `outputs.remove(outputs[channel_name])`: remove the first socket
with the given name. -/
def removeOutput (n : String) : List Socket → List Socket
  | [] => []
  | s :: rest => if s.name == n then rest else s :: removeOutput n rest

/-- `remove_channel`: raise when the name is missing; otherwise tear the
channel down (its own teardown does not touch the layer's fields),
remove it from the list, remove the matching node-tree output if any,
then shift the active index left when the removed index preceded it and
clamp it into the new bounds.  Accessing `node_tree.outputs` on a layer
without a node tree raises after the channel was already removed. -/
def removeChannel (l : MaterialLayer) (channelName : String) : OpResult :=
  match listFindIdx (fun x => x.name == channelName) l.channels with
  | none => { layer := l, err := some .valueError }
  | some chIdx =>
    let l := { l with channels := l.channels.eraseIdx chIdx }
    match l.nodeTree with
    | none => { layer := l, err := some .attributeError }
    | some nt =>
      let nt :=
        if nt.outputs.any (fun s => s.name == channelName) then
          { nt with outputs := removeOutput channelName nt.outputs }
        else nt
      let l := { l with nodeTree := some nt }
      let activeIndex : Int := l.activeChannelIndex
      let activeIndex := if (chIdx : Int) < activeIndex then activeIndex - 1 else activeIndex
      let activeIndex := max (min activeIndex ((l.channels.length : Int) - 1)) 0
      { layer := { l with activeChannelIndex := activeIndex.toNat } }

/-- The loop body of `clear_channels` over the snapshot of channel
names; an exception aborts the remaining iterations. -/
def clearChannelsGo : List String → MaterialLayer → OpResult
  | [], l => { layer := l }
  | n :: rest, l =>
    let r := removeChannel l n
    match r.err with
    | some e => { layer := r.layer, err := some e }
    | none => clearChannelsGo rest r.layer

/-- `clear_channels`: remove every channel one at a time via
`remove_channel`, iterating over a snapshot of the names. -/
def clearChannels (l : MaterialLayer) : OpResult :=
  clearChannelsGo (l.channels.map (·.name)) l

/-- The two valid `layer_type` enum values. -/
def VALID_LAYER_TYPES : List String := ["MATERIAL_PAINT", "MATERIAL_FILL"]

/-- Modelled from the spec: the candidate loop inside
`allocate_unique_identifier` — try opaque tokens until one is not in
use. -/
def allocUniqueIdAux (ids : List String) : Nat → Nat → String
  | k, 0 => "id" ++ Nat.repr k
  | k, fuel + 1 =>
    if ("id" ++ Nat.repr k) ∈ ids then allocUniqueIdAux ids (k + 1) fuel
    else "id" ++ Nat.repr k

/-- Modelled from the spec: `unique_name_in(layer_stack.layers, 4,
attr="identifier")` — a fresh non-empty identifier token,
collision-checked against the existing identifiers. -/
def allocUniqueId (ids : List String) : String :=
  allocUniqueIdAux ids 0 (ids.length + 1)

/-- Modelled from the spec: `image_manager.allocate_image_to_layer`
binds an alpha image to a paint layer (dedicated-buffer mode uses
image channel -1). -/
def allocateImageToLayer (l : MaterialLayer) : MaterialLayer :=
  { l with image := some 0, imageChannel := -1 }

/-- Modelled from the spec: `image_manager.deallocate_layer_image`
releases the binding, resetting both fields to `(null, -1)`. -/
def deallocateLayerImage (l : MaterialLayer) : MaterialLayer :=
  { l with image := none, imageChannel := -1 }

/-- `_create_preview_material`, at handle granularity: create the
preview material datablock when none exists (the preview node graph
itself is outside the embedded state). -/
def createPreviewMaterial (l : MaterialLayer) : MaterialLayer :=
  match l.previewMaterial with
  | some _ => l
  | none => { l with previewMaterial := some 0 }

/-- `_delete_preview_material`: remove the preview material datablock;
removing the datablock clears the layer's pointer. -/
def deletePreviewMaterial (l : MaterialLayer) : MaterialLayer :=
  { l with previewMaterial := none }

/-- `free_bake`: free every baked channel and clear the layer's baked
flag (`Channel.free_bake` is modelled from the spec as clearing the
channel's baked state). -/
def freeBake (l : MaterialLayer) : MaterialLayer :=
  { l with
    channels := l.channels.map (fun ch =>
      if ch.isBaked then { ch with isBaked := false } else ch),
    isBaked := false }

/-- Result of a stack-indexed operation. -/
structure StackOpResult where
  stack : LayerStack
  err : Option PyErr := none
deriving DecidableEq, Repr

/-- `add_channel` invoked on the layer slot at index `i`. -/
def addChannelAt (st : LayerStack) (i : Nat) (ch : BasicChannel) : StackOpResult :=
  match st.layers[i]? with
  | none => { stack := st }
  | some l =>
    let r := addChannel st l ch
    { stack := modifyLayer st i (fun _ => r.layer), err := r.err }

/-- `remove_channel` invoked on the layer slot at index `i`. -/
def removeChannelAt (st : LayerStack) (i : Nat) (n : String) : StackOpResult :=
  match st.layers[i]? with
  | none => { stack := st }
  | some l =>
    let r := removeChannel l n
    { stack := modifyLayer st i (fun _ => r.layer), err := r.err }

/-- `clear_channels` invoked on the layer slot at index `i`. -/
def clearChannelsAt (st : LayerStack) (i : Nat) : StackOpResult :=
  match st.layers[i]? with
  | none => { stack := st }
  | some l =>
    let r := clearChannels l
    { stack := modifyLayer st i (fun _ => r.layer), err := r.err }

/-- The `for ch in channels` loop of `initialize`: add each supplied
channel that is enabled (or every one when `enabled_channels_only` is
false); an exception aborts the loop. -/
def initChannelsLoop (i : Nat) : LayerStack → List BasicChannel → Bool → StackOpResult
  | st, [], _ => { stack := st }
  | st, ch :: rest, enOnly =>
    if ch.enabled || !enOnly then
      let r := addChannelAt st i ch
      match r.err with
      | some e => { stack := r.stack, err := some e }
      | none => initChannelsLoop i r.stack rest enOnly
    else initChannelsLoop i st rest enOnly

/-- `initialize`: the three precondition checks (attached to a stack,
not yet initialized, recognized layer type) run before any mutation;
then the identifier is allocated, name/type/enabled/opacity/active
index set, the node tree created, the supplied channels added, the
output node added (`set_node_group_vector_defaults` adds helper nodes
only), a paint layer gets an image allocated, and the preview material
is created when previews are enabled.  `hasStack` models whether
`self.layer_stack` is non-null. -/
def initializeAt (st : LayerStack) (i : Nat) (hasStack : Bool) (nm : String)
    (layerType : String) (channels : Option (List BasicChannel))
    (enabledChannelsOnly : Bool) (showPreviews : Bool) : StackOpResult :=
  match st.layers[i]? with
  | none => { stack := st }
  | some self =>
    if !hasStack then { stack := st, err := some .runtimeError }
    else if isInitialized self then { stack := st, err := some .runtimeError }
    else if layerType ∉ VALID_LAYER_TYPES then { stack := st, err := some .valueError }
    else
      let ident := allocUniqueId (st.layers.map (·.identifier))
      let st := modifyLayer st i (fun l => { l with identifier := ident })
      let st := setNameAt st i nm
      let st := modifyLayer st i (fun l =>
        { l with layerType := layerType, enabled := true, opacity := 1,
                 activeChannelIndex := 0 })
      let st := modifyLayer st i (fun l =>
        { l with nodeTree := some { name := "." ++ l.name } })
      let r : StackOpResult :=
        match channels with
        | none => { stack := st }
        | some chs => initChannelsLoop i st chs enabledChannelsOnly
      match r.err with
      | some e => { stack := r.stack, err := some e }
      | none =>
        let st := r.stack
        let st := modifyLayer st i (fun l =>
          { l with nodeTree := l.nodeTree.map (fun nt =>
              { nt with nodes := nt.nodes ++ ["layer_output"] }) })
        let st :=
          if layerType == "MATERIAL_PAINT" then modifyLayer st i allocateImageToLayer
          else st
        let st :=
          if showPreviews then
            modifyLayer st i (fun l =>
              match l.nodeTree with
              | none => l
              | some _ => createPreviewMaterial l)
          else st
        { stack := st }

/-- The `for child in self.children` loop of `delete`:
`child.resolve().delete()` for each child ref, raising on an empty ref
or a dangling one.  `recDelete` is the recursive `delete` invocation on
the resolved child's slot. -/
def deleteChildrenGo (recDelete : LayerStack → Nat → StackOpResult) :
    LayerStack → List MaterialLayerRef → StackOpResult
  | st, [] => { stack := st }
  | st, r :: rest =>
    if r.name = "" then { stack := st, err := some .runtimeError }
    else
      match listFindIdx (fun x => x.identifier == r.name) st.layers with
      | none => { stack := st, err := some .attributeError }
      | some j =>
        let res := recDelete st j
        match res.err with
        | some e => res
        | none => deleteChildrenGo recDelete res.stack rest

/-- `delete`: a no-op on an uninitialized layer; otherwise clear the
identifier first, detach from the parent, free bakes, deallocate the
image binding if bound, recursively delete every child, clear the
children and channels, destroy the node tree, clear the node mask,
delete the preview material, and finally clear the name (which runs the
name-update callback).  `fuel` bounds the child recursion (the host
interpreter's recursion limit). -/
def deleteAt : LayerStack → Nat → Nat → StackOpResult
  | st, _, 0 => { stack := st, err := some .recursionError }
  | st, i, fuel + 1 =>
    match st.layers[i]? with
    | none => { stack := st }
    | some self =>
      if !(isInitialized self) then { stack := st }
      else
        let st := modifyLayer st i (fun l => { l with identifier := "" })
        let st := modifyLayer st i (fun l => { l with parent := {} })
        let st := modifyLayer st i freeBake
        let st :=
          match st.layers[i]? with
          | some l => if l.image ≠ none then modifyLayer st i deallocateLayerImage else st
          | none => st
        let children := (st.layers[i]?.map (·.children)).getD []
        let r := deleteChildrenGo (fun s j => deleteAt s j fuel) st children
        match r.err with
        | some e => { stack := r.stack, err := some e }
        | none =>
          let st := r.stack
          let st := modifyLayer st i (fun l => { l with children := [] })
          let st := modifyLayer st i (fun l => { l with channels := [] })
          let st := modifyLayer st i (fun l =>
            match l.nodeTree with
            | some _ => { l with nodeTree := none }
            | none => l)
          let st := modifyLayer st i (fun l => { l with nodeMask := none })
          let st := modifyLayer st i deletePreviewMaterial
          let st := setNameAt st i ""
          { stack := st }

/-- The child loop of `descendents`, carried out over the accumulated
result list: resolve each ref (raising on an empty ref, and on a
dangling one when its `children` attribute is read), recurse via `rec`
when the child itself has children, then append the child. -/
def descendentsGo (st : LayerStack)
    (rec : MaterialLayer → Except PyErr (List MaterialLayer)) :
    List MaterialLayerRef → List MaterialLayer → Except PyErr (List MaterialLayer)
  | [], acc => .ok acc
  | r :: rest, acc =>
    match resolveRef st r with
    | .error e => .error e
    | .ok none => .error .attributeError
    | .ok (some child) =>
      if child.children.isEmpty then descendentsGo st rec rest (acc ++ [child])
      else
        match rec child with
        | .error e => .error e
        | .ok ds => descendentsGo st rec rest (acc ++ ds ++ [child])

/-- `descendents`: every descendent of the layer, youngest generations
first — for each child in order, the child's own descendents (when the
child has children) followed by the child itself.  `fuel` bounds the
recursion depth (the host interpreter's recursion limit). -/
def descendents (st : LayerStack) : Nat → MaterialLayer → Except PyErr (List MaterialLayer)
  | 0, _ => .error .recursionError
  | fuel + 1, self => descendentsGo st (fun c => descendents st fuel c) self.children []

/-- Modelled from the spec: the stack-level `get_layer_below` used for
top-level layers — the neighbor below among the stack's initialized
top-level layers, or `null` at the bottom. -/
def stackGetLayerBelowTopLevel (st : LayerStack) (self : MaterialLayer) :
    Option MaterialLayer :=
  let top := st.layers.filter (fun x => isInitialized x && !(refIsSet x.parent))
  match listFindIdx (fun x => layerEq self x) top with
  | none => none
  | some idx => if idx = 0 then none else top[idx - 1]?

/-- `get_layer_below`: raise on an uninitialized layer; delegate to the
stack for top-level layers.  On the non-top-level path the source
builds the sibling list with `self.parent.resolve().children()` — but
`children` is a collection property and a `bpy_prop_collection` is not
callable, so that expression raises `TypeError` when the parent
resolves (and `AttributeError` when the resolve returns `None`), and
the sibling-index logic below it is unreachable. -/
def getLayerBelow (st : LayerStack) (self : MaterialLayer) :
    Except PyErr (Option MaterialLayer) :=
  if !(isInitialized self) then .error .runtimeError
  else if !(refIsSet self.parent) then .ok (stackGetLayerBelowTopLevel st self)
  else
    match getLayerById st self.parent.name with
    | none => .error .attributeError
    | some _ => .error .typeError

/-- `stack_depth`: 0 with no parent, 1 with a parent that is top-level,
otherwise the grandparent's depth plus two.  The source recursion is
bounded only by the interpreter's recursion limit, modelled by `fuel`;
a dangling parent ref raises when its attributes are read. -/
def stackDepth (st : LayerStack) : MaterialLayer → Nat → Except PyErr Nat
  | _, 0 => .error .recursionError
  | self, fuel + 1 =>
    if !(refIsSet self.parent) then .ok 0
    else
      match getLayerById st self.parent.name with
      | none => .error .attributeError
      | some parent =>
        if !(refIsSet parent.parent) then .ok 1
        else
          match getLayerById st parent.parent.name with
          | none => .error .attributeError
          | some gp => (stackDepth st gp fuel).map (· + 2)

/-- One invocation of a public layer operation, for reasoning about
operation sequences. -/
inductive LayerOp where
  | initOp (hasStack : Bool) (nm : String) (lt : String)
      (chs : Option (List BasicChannel)) (enOnly : Bool) (showPrev : Bool)
  | addOp (ch : BasicChannel)
  | removeOp (n : String)
  | clearOp
  | deleteOp (fuel : Nat)
deriving DecidableEq, Repr

/-- Apply one public operation to the layer slot at index `i`, keeping
whatever state the operation left behind (including the partial state
of a raising call). -/
def applyOp (st : LayerStack) (i : Nat) : LayerOp → LayerStack
  | .initOp hs nm lt chs eo sp => (initializeAt st i hs nm lt chs eo sp).stack
  | .addOp ch => (addChannelAt st i ch).stack
  | .removeOp n => (removeChannelAt st i n).stack
  | .clearOp => (clearChannelsAt st i).stack
  | .deleteOp fuel => (deleteAt st i fuel).stack

/-- Run a sequence of public operations against the layer slot at
index `i`. -/
def runOps (st : LayerStack) (i : Nat) (ops : List LayerOp) : LayerStack :=
  ops.foldl (fun s op => applyOp s i op) st

/-- Walking resolvable `parent` links from a layer reaches a top-level
layer (unset parent) in exactly `n` hops. -/
def ParentChainUp (st : LayerStack) : MaterialLayer → Nat → Prop
  | l, 0 => l.parent.name = ""
  | l, n + 1 =>
    l.parent.name ≠ "" ∧ ∃ p, getLayerById st l.parent.name = some p ∧ ParentChainUp st p n

/-- Fixture: the bottom sibling (index 0 among its parent's children). -/
def cxBottom : MaterialLayer := { identifier := "A", name := "A", parent := { name := "P" } }

/-- Fixture: the top sibling (index 1 among its parent's children). -/
def cxTop : MaterialLayer := { identifier := "B", name := "B", parent := { name := "P" } }

/-- Fixture: a parent layer with two initialized children, bottom first. -/
def cxParent : MaterialLayer :=
  { identifier := "P", name := "P", children := [{ name := "A" }, { name := "B" }] }

/-- Fixture: the stack holding the sibling-navigation example. -/
def cxStack : LayerStack := { layers := [cxParent, cxBottom, cxTop] }

/-- Fixture: grandchild A1 of the descendents example. -/
def exA1 : MaterialLayer := { identifier := "A1", name := "A1", parent := { name := "A" } }

/-- Fixture: grandchild B1 of the descendents example. -/
def exB1 : MaterialLayer := { identifier := "B1", name := "B1", parent := { name := "B" } }

/-- Fixture: grandchild B2 of the descendents example. -/
def exB2 : MaterialLayer := { identifier := "B2", name := "B2", parent := { name := "B" } }

/-- Fixture: child A with one child A1. -/
def exA : MaterialLayer :=
  { identifier := "A", name := "A", parent := { name := "R" }, children := [{ name := "A1" }] }

/-- Fixture: child B with children B1 and B2. -/
def exB : MaterialLayer :=
  { identifier := "B", name := "B", parent := { name := "R" },
    children := [{ name := "B1" }, { name := "B2" }] }

/-- Fixture: the root layer with children A and B. -/
def exRoot : MaterialLayer :=
  { identifier := "R", name := "R", children := [{ name := "A" }, { name := "B" }] }

/-- Fixture: the stack holding the descendents example tree. -/
def exStack : LayerStack := { layers := [exRoot, exA, exA1, exB, exB1, exB2] }

/-- Fixture: member `k` of a 102-layer parent chain — layer `k`'s parent
is layer `k+1`, and layer 101 is top-level, so layer 0 has 101
ancestors. -/
def chainLayer (k : Nat) : MaterialLayer :=
  { identifier := "c" ++ Nat.repr k, name := "c" ++ Nat.repr k,
    parent := if k = 101 then {} else { name := "c" ++ Nat.repr (k + 1) } }

/-- Fixture: the stack holding the 102-layer parent chain. -/
def chainStack : LayerStack := { layers := (List.range 102).map chainLayer }

/-- Fixture: a freshly allocated, uninitialized layer slot (all fields
at their property defaults). -/
def freshLayer : MaterialLayer := {}

/-- Fixture: a stack holding a single fresh slot. -/
def freshStack : LayerStack := { layers := [freshLayer] }

/-- The stack's layer list at the instant the name-update callback runs
for an assignment of `n` to the name of the layer at index `i`: slot `i`
carries the new name, every other slot is untouched. -/
def layersWithName (st : LayerStack) (i : Nat) (n : String) : List MaterialLayer :=
  (modifyLayer st i (fun l => { l with name := n })).layers

/-- The active-channel index stored at slot `k` of the stack, for
tracking the index across operation sequences. -/
def activesAt (st : LayerStack) (k : Nat) : Option Nat :=
  (st.layers[k]?).map (·.activeChannelIndex)

/-- The net effect of the name-update callback on the layer it runs
for: the name becomes some string `u` and the node tree, when present,
is renamed to `"." ++ u`; no other field changes. -/
def renameLayer (l : MaterialLayer) (u : String) : MaterialLayer :=
  match l.nodeTree with
  | some nt => { l with name := u, nodeTree := some { nt with name := "." ++ u } }
  | none => { l with name := u }

/-- C2: for every initialized non-top-level layer, `get_layer_below` is
documented (and specified) to return the adjacent initialized sibling
below, with `null` exactly at the bottom extremity (index 0), but the
code instead raises `TypeError` on every such call: it builds the
sibling list by calling the parent's `children` collection
(`self.parent.resolve().children()`), and a `bpy_prop_collection` is
not callable, so neither a sibling nor `null` is ever returned.  This
theorem evaluates the embedded code on a parent with initialized
children `[bottom, top]`: both siblings raise, and the uninitialized
fresh slot raises the documented invalid-state error. -/
theorem get_layer_below_raises_type_error :
    getLayerBelow cxStack cxBottom = .error .typeError ∧
    getLayerBelow cxStack cxTop = .error .typeError ∧
    getLayerBelow cxStack freshLayer = .error .runtimeError := ⟨rfl, rfl, rfl⟩

/-- C7: calling `add_channel` with a channel whose name already exists
on the layer does not raise: it returns the existing channel (the first
one with that name) and leaves the layer — channel list, node-tree
outputs and every other field — completely unchanged. -/
theorem add_channel_duplicate_idempotent (st : LayerStack) (l : MaterialLayer)
    (ch c : BasicChannel)
    (h : l.channels.find? (fun x => x.name == ch.name) = some c) :
    addChannel st l ch = { layer := l, ret := some c, err := none } := by
  simp [addChannel, h]

/-- Witness for C7 at a concrete layer that already has a channel named
"Roughness". -/
theorem add_channel_duplicate_idempotent_witness :
    addChannel { layers := [] }
      { identifier := "z", name := "Z",
        channels := [{ name := "Roughness", socketType := "FLOAT_FACTOR" }],
        nodeTree := some { name := ".Z" } }
      { name := "Roughness", socketType := "FLOAT" } =
    { layer := { identifier := "z", name := "Z",
                 channels := [{ name := "Roughness", socketType := "FLOAT_FACTOR" }],
                 nodeTree := some { name := ".Z" } },
      ret := some { name := "Roughness", socketType := "FLOAT_FACTOR" },
      err := none } :=
  add_channel_duplicate_idempotent _ _ _ _ rfl

/-- C9: `MaterialLayer.__eq__` compares two layers solely by identifier
string equality; consequently any two uninitialized layers (empty
identifiers) compare equal, and an initialized layer never compares
equal to an uninitialized one. -/
theorem layer_equality_by_identifier :
    (∀ a b : MaterialLayer, layerEq a b = true ↔ a.identifier = b.identifier) ∧
    (∀ a b : MaterialLayer, isInitialized a = false → isInitialized b = false →
      layerEq a b = true) ∧
    (∀ a b : MaterialLayer, isInitialized a = true → isInitialized b = false →
      layerEq a b = false) := by
  refine ⟨fun a b => ?_, fun a b ha hb => ?_, fun a b ha hb => ?_⟩
  · simp only [layerEq, beq_iff_eq]
    exact eq_comm
  · simp only [isInitialized, bne_eq_false_iff_eq] at ha hb
    simp [layerEq, ha, hb]
  · simp only [isInitialized, bne_eq_false_iff_eq, bne_iff_ne] at ha hb
    simp [layerEq, hb]
    exact fun h => absurd h.symm ha

/-- Witness for C9: two concrete uninitialized layers compare equal and
an initialized layer does not equal an uninitialized one. -/
theorem layer_equality_by_identifier_witness :
    layerEq { identifier := "" } { identifier := "", name := "Other" } = true ∧
    layerEq { identifier := "x" } { identifier := "" } = false :=
  ⟨layer_equality_by_identifier.2.1 _ _ rfl rfl,
   layer_equality_by_identifier.2.2 _ _ rfl rfl⟩

/-- C10: `initialize` is atomic on failure — when any of its
precondition checks fires (layer not attached to a stack, already
initialized, or unrecognized `layer_type`), the call raises and no
stored field of any layer changes, because all checks precede every
mutation. -/
theorem initialize_atomic_on_failure (st : LayerStack) (i : Nat)
    (hasStack : Bool) (nm lt : String) (chs : Option (List BasicChannel))
    (eo sp : Bool) (l : MaterialLayer) (hl : st.layers[i]? = some l)
    (h : hasStack = false ∨ isInitialized l = true ∨ lt ∉ VALID_LAYER_TYPES) :
    (initializeAt st i hasStack nm lt chs eo sp).stack = st ∧
    (initializeAt st i hasStack nm lt chs eo sp).err.isSome = true := by
  cases hasStack with
  | false => simp [initializeAt, hl]
  | true =>
    rcases h with h | h | h
    · exact absurd h (by simp)
    · simp [initializeAt, hl, h]
    · by_cases hi : isInitialized l = true
      · simp [initializeAt, hl, hi]
      · simp [initializeAt, hl, hi, h]

/-- Witness for C10: initializing an already-initialized concrete layer
leaves the stack unchanged and raises. -/
theorem initialize_atomic_on_failure_witness :
    (initializeAt { layers := [{ identifier := "x", name := "X" }] } 0 true "Y"
      "MATERIAL_PAINT" none true false).stack =
      { layers := [{ identifier := "x", name := "X" }] } ∧
    (initializeAt { layers := [{ identifier := "x", name := "X" }] } 0 true "Y"
      "MATERIAL_PAINT" none true false).err.isSome = true :=
  initialize_atomic_on_failure _ _ _ _ _ _ _ _ _ rfl (Or.inr (Or.inl rfl))

/-- Modifying index `i` leaves the length unchanged. -/
theorem listModify_length (f : α → α) (i : Nat) (xs : List α) :
    (listModify f i xs).length = xs.length := by
  induction xs generalizing i with
  | nil => cases i <;> rfl
  | cons a as ih =>
    cases i with
    | zero => rfl
    | succ n => simpa [listModify] using ih n

/-- Reading the modified index applies the function to the original
element. -/
theorem listModify_getElem_self (f : α → α) (i : Nat) (xs : List α) :
    (listModify f i xs)[i]? = (xs[i]?).map f := by
  induction xs generalizing i with
  | nil => cases i <;> rfl
  | cons a as ih =>
    cases i with
    | zero => simp [listModify]
    | succ n => simpa [listModify] using ih n

/-- Reading any other index is unaffected by the modification. -/
theorem listModify_getElem_ne (f : α → α) (i j : Nat) (h : j ≠ i) (xs : List α) :
    (listModify f i xs)[j]? = xs[j]? := by
  induction xs generalizing i j with
  | nil => cases i <;> rfl
  | cons a as ih =>
    cases i with
    | zero => cases j with
      | zero => exact absurd rfl h
      | succ m => rfl
    | succ n => cases j with
      | zero => simp [listModify]
      | succ m => simpa [listModify] using ih n m (fun hh => h (by omega))

/-- A member of the modified list is either a member of the original or
the image of the element at the modified index. -/
theorem mem_listModify {f : α → α} {i : Nat} {xs : List α} {x : α}
    (h : x ∈ listModify f i xs) :
    x ∈ xs ∨ ∃ y, xs[i]? = some y ∧ x = f y := by
  induction xs generalizing i with
  | nil => simp [listModify] at h
  | cons a as ih =>
    cases i with
    | zero =>
      rcases List.mem_cons.mp h with h | h
      · exact Or.inr ⟨a, by simp, h⟩
      · exact Or.inl (List.mem_cons_of_mem _ h)
    | succ n =>
      rcases List.mem_cons.mp h with h | h
      · exact Or.inl (h ▸ List.mem_cons_self a as)
      · rcases ih h with h | ⟨y, hy, hx⟩
        · exact Or.inl (List.mem_cons_of_mem _ h)
        · exact Or.inr ⟨y, by simpa using hy, hx⟩

/-- C3 counterexample: the claim says exceeding 100 ancestors raises a
cycle fault, but `stack_depth` has no 100-hop bound — on a 102-layer
chain the layer with 101 ancestors yields depth 101 without any
fault. -/
theorem stack_depth_no_hundred_hop_fault :
    stackDepth chainStack (chainLayer 0) 1000 = .ok 101 ∧ 100 < 101 :=
  ⟨rfl, by decide⟩

/-- C3 (amended): `stack_depth` equals the number of ancestors reached
by walking `parent` links — 0 with an unset parent, n for n resolvable
ancestors — for any recursion budget exceeding the ancestor count; the
recursion is bounded only by the interpreter's recursion limit, not by
a 100-hop cycle fault. -/
theorem stack_depth_counts_ancestors (st : LayerStack) :
    ∀ (fuel n : Nat) (l : MaterialLayer),
      ParentChainUp st l n → n < fuel → stackDepth st l fuel = .ok n := by
  intro fuel
  induction fuel with
  | zero => intro n l _ h; exact absurd h (Nat.not_lt_zero n)
  | succ fuel ih =>
    intro n l hc hn
    match n, hc with
    | 0, h0 =>
      have h0' : l.parent.name = "" := h0
      simp [stackDepth, refIsSet, h0']
    | 1, ⟨hp, p, hres, hp0⟩ =>
      have hp0' : p.parent.name = "" := hp0
      simp [stackDepth, refIsSet, hp, hres, hp0']
    | n + 2, ⟨hp, p, hres, hp2, gp, hres2, hgp⟩ =>
      have hrec : stackDepth st gp fuel = .ok n := ih n gp hgp (by omega)
      simp [stackDepth, refIsSet, hp, hres, hp2, hres2, hrec, Except.map]

/-- Witness for C3's amended theorem: a concrete layer with exactly two
resolvable ancestors has stack depth 2. -/
theorem stack_depth_counts_ancestors_witness :
    stackDepth exStack exA1 3 = .ok 2 :=
  stack_depth_counts_ancestors exStack 3 2 exA1
    ⟨by decide, exA, rfl, by decide, exRoot, rfl, rfl⟩ (by decide)

/-- The child loop of `descendents` computes, onto the accumulator, the
claim's recursion: for each resolvable child in order, the child's own
descendent list followed by the child. -/
theorem descendentsGo_spec (st : LayerStack) (fuel : Nat)
    (ch : MaterialLayerRef → MaterialLayer)
    (res : MaterialLayerRef → List MaterialLayer) :
    ∀ (refs : List MaterialLayerRef) (acc : List MaterialLayer),
      (∀ r ∈ refs, r.name ≠ "" ∧ getLayerById st r.name = some (ch r) ∧
        descendents st fuel (ch r) = .ok (res r)) →
      descendentsGo st (fun c => descendents st fuel c) refs acc =
        .ok (acc ++ refs.flatMap (fun r => res r ++ [ch r])) := by
  intro refs
  induction refs with
  | nil => intro acc _; simp [descendentsGo]
  | cons r rest ih =>
    intro acc h
    obtain ⟨hne, hres, hdesc⟩ := h r (List.mem_cons_self r rest)
    have hrest := fun x hx => h x (List.mem_cons_of_mem r hx)
    by_cases hcc : (ch r).children.isEmpty = true
    · have hnil : res r = [] := by
        cases fuel with
        | zero => simp [descendents] at hdesc
        | succ fuel =>
          have hcn : (ch r).children = [] := List.isEmpty_iff.mp hcc
          simp [descendents, hcn, descendentsGo] at hdesc
          exact hdesc
      simp [descendentsGo, resolveRef, hne, hres, hcc, hnil, ih _ hrest]
    · simp [descendentsGo, resolveRef, hne, hres, hcc, hdesc, ih _ hrest]

/-- C4: for every layer whose children all resolve, `descendents`
returns the flattened depth-first, youngest-first list defined
recursively as: for each child in child order, emit that child's
descendent list, then emit the child itself. -/
theorem descendents_youngest_first (st : LayerStack) (fuel : Nat)
    (l : MaterialLayer) (ch : MaterialLayerRef → MaterialLayer)
    (res : MaterialLayerRef → List MaterialLayer)
    (h : ∀ r ∈ l.children, r.name ≠ "" ∧ getLayerById st r.name = some (ch r) ∧
      descendents st fuel (ch r) = .ok (res r)) :
    descendents st (fuel + 1) l = .ok (l.children.flatMap (fun r => res r ++ [ch r])) := by
  have := descendentsGo_spec st fuel ch res l.children [] h
  simpa [descendents] using this

/-- Witness for C4: the example tree root with children `[A, B]`, where
`A` has child `A1` and `B` has children `B1, B2`, yields exactly
`[A1, A, B1, B2, B]`. -/
theorem descendents_youngest_first_witness :
    descendents exStack 3 exRoot = .ok [exA1, exA, exB1, exB2, exB] := by
  have h : ∀ r ∈ exRoot.children, r.name ≠ "" ∧
      getLayerById exStack r.name = some (if r.name = "A" then exA else exB) ∧
      descendents exStack 2 (if r.name = "A" then exA else exB) =
        .ok (if r.name = "A" then [exA1] else [exB1, exB2]) := by
    intro r hr
    simp only [exRoot, List.mem_cons, List.not_mem_nil, or_false] at hr
    rcases hr with rfl | rfl
    · exact ⟨by decide, rfl, rfl⟩
    · exact ⟨by decide, rfl, rfl⟩
  rw [descendents_youngest_first exStack 2 exRoot _ _ h]
  rfl

/-- A suffixed candidate name is never equal to the base name (it is at
least one character longer). -/
theorem suffixedName_ne_base (b : String) (k : Nat) : suffixedName b k ≠ b := by
  intro h
  have hlen := congrArg String.length h
  have hdot : (".").length = 1 := rfl
  simp [suffixedName, String.length_append] at hlen
  omega

/-- The first suffix candidate is `base.01`. -/
theorem suffixedName_one (n : String) : suffixedName n 1 = n ++ ".01" := by
  rw [suffixedName, String.append_assoc]
  rfl

/-- The second suffix candidate is `base.02`. -/
theorem suffixedName_two (n : String) : suffixedName n 2 = n ++ ".02" := by
  rw [suffixedName, String.append_assoc]
  rfl

/-- C5: renaming (or initializing) the layer at index `i` to a base
name already held by another initialized layer of the stack yields
distinct final names: the newcomer gets the first free two-digit suffix
(`base.01` when free; `base.02` when `.01` is taken, skipping the taken
suffix), while a base name held only by uninitialized (deleted) slots is
no collision and is kept unaltered. -/
theorem unique_name_collision_suffixing (st : LayerStack) (i : Nat) (n : String)
    (l : MaterialLayer) (hl : st.layers[i]? = some l) :
    ((∃ x ∈ layersWithName st i n, x.name = n ∧ x.identifier ≠ l.identifier ∧
        isInitialized x = true) →
      suffixedName n 1 ∉ (layersWithName st i n).map (·.name) →
      ((setNameAt st i n).layers[i]?).map (·.name) = some (n ++ ".01") ∧
        n ++ ".01" ≠ n) ∧
    ((∃ x ∈ layersWithName st i n, x.name = n ∧ x.identifier ≠ l.identifier ∧
        isInitialized x = true) →
      suffixedName n 1 ∈ (layersWithName st i n).map (·.name) →
      suffixedName n 2 ∉ (layersWithName st i n).map (·.name) →
      ((setNameAt st i n).layers[i]?).map (·.name) = some (n ++ ".02")) ∧
    ((∀ x ∈ layersWithName st i n, x.name = n → x.identifier ≠ l.identifier →
        isInitialized x = false) →
      ((setNameAt st i n).layers[i]?).map (·.name) = some n) := by
  have hA : (layersWithName st i n)[i]? = some { l with name := n } := by
    simp [layersWithName, modifyLayer, listModify_getElem_self, hl]
  have hstack : setNameAt st i n =
      updateNameAt { st with layers := layersWithName st i n } i := rfl
  refine ⟨fun hcol h01 => ?_, fun hcol h01m h02 => ?_, fun hno => ?_⟩
  · obtain ⟨x, hxm, hxn, hxid, hxinit⟩ := hcol
    cases hfind : (layersWithName st i n).find? (fun x =>
        x.name == ({ l with name := n } : MaterialLayer).name &&
        !(layerEq { l with name := n } x) && isInitialized x) with
    | none =>
      exact absurd (by simp [layerEq, hxn, hxid, hxinit])
        (List.find?_eq_none.mp hfind x hxm)
    | some y =>
      have hGUN : getUniqueName (layersWithName st i n) { l with name := n } =
          suffixedName n 1 := by
        simp only [getUniqueName, hfind]
        simp [firstFreeSuffix, h01]
      have hcond : n ++ ".01" ≠ n := by
        rw [← suffixedName_one]; exact suffixedName_ne_base n 1
      refine ⟨?_, hcond⟩
      rw [hstack]
      simp only [updateNameAt, hA, hGUN]
      simp only [layersWithName] at hA
      simp [hcond, modifyLayer, listModify_getElem_self, layersWithName,
        suffixedName_one]
      exact ⟨l, hl, by cases l.nodeTree <;> rfl⟩
  · obtain ⟨x, hxm, hxn, hxid, hxinit⟩ := hcol
    cases hfind : (layersWithName st i n).find? (fun x =>
        x.name == ({ l with name := n } : MaterialLayer).name &&
        !(layerEq { l with name := n } x) && isInitialized x) with
    | none =>
      exact absurd (by simp [layerEq, hxn, hxid, hxinit])
        (List.find?_eq_none.mp hfind x hxm)
    | some y =>
      obtain ⟨m, hm⟩ : ∃ m, (layersWithName st i n).length = m + 1 := by
        cases hL : layersWithName st i n with
        | nil => rw [hL] at hA; simp at hA
        | cons a as => exact ⟨as.length, by simp [hL]⟩
      have hGUN : getUniqueName (layersWithName st i n) { l with name := n } =
          suffixedName n 2 := by
        simp only [getUniqueName, hfind, hm]
        simp [firstFreeSuffix, h01m, h02]
      have hcond : n ++ ".02" ≠ n := by
        rw [← suffixedName_two]; exact suffixedName_ne_base n 2
      rw [hstack]
      simp only [updateNameAt, hA, hGUN]
      simp only [layersWithName] at hA
      simp [hcond, modifyLayer, listModify_getElem_self, layersWithName,
        suffixedName_two]
      exact ⟨l, hl, by cases l.nodeTree <;> rfl⟩
  · have hfind : (layersWithName st i n).find? (fun x =>
        x.name == ({ l with name := n } : MaterialLayer).name &&
        !(layerEq { l with name := n } x) && isInitialized x) = none := by
      apply List.find?_eq_none.mpr
      intro x hx hpx
      simp only [Bool.and_eq_true, beq_iff_eq, Bool.not_eq_true', beq_eq_false_iff_ne,
        layerEq] at hpx
      obtain ⟨⟨hxn, hxid⟩, hxinit⟩ := hpx
      exact absurd hxinit (by simp [hno x hx hxn hxid])
    have hGUN : getUniqueName (layersWithName st i n) { l with name := n } = n := by
      simp [getUniqueName, hfind]
    rw [hstack]
    simp only [updateNameAt, hA, hGUN]
    simp only [layersWithName] at hA
    simp [modifyLayer, listModify_getElem_self, layersWithName]
    exact ⟨l, hl, by cases l.nodeTree <;> rfl⟩

/-- Witness for C5: a stack whose slot 0 is the initialized layer
"Layer"; renaming slot 1 to "Layer" produces "Layer.01". -/
theorem unique_name_collision_suffixing_witness :
    ((setNameAt
        { layers := [{ identifier := "x1", name := "Layer" },
                     { identifier := "x2", name := "Foo" }] } 1 "Layer").layers[1]?).map
      (·.name) = some "Layer.01" := by
  have h := (unique_name_collision_suffixing
    { layers := [{ identifier := "x1", name := "Layer" },
                 { identifier := "x2", name := "Foo" }] } 1 "Layer"
    { identifier := "x2", name := "Foo" } rfl).1
    ⟨{ identifier := "x1", name := "Layer" }, by decide, rfl, by decide, rfl⟩
    (by decide)
  simpa using h.1

/-- The type-specific socket settings never change the socket's name. -/
theorem applySocketSettings_name (st : LayerStack) (ch : BasicChannel) (s : Socket) :
    (applySocketSettings st ch s).name = s.name := by
  unfold applySocketSettings
  cases getChannelDefaultValue st ch <;>
    by_cases h1 : (ch.socketType == "VECTOR") = true <;>
      by_cases h2 : (ch.socketType == "FLOAT_FACTOR") = true <;>
        simp [h1, h2]

/-- When no earlier element matches, the first index found in
`xs ++ [a]` for a predicate satisfied by `a` is `xs.length`. -/
theorem listFindIdx_append_last (p : α → Bool) (xs : List α) (a : α)
    (h : ∀ x ∈ xs, p x = false) (ha : p a = true) :
    listFindIdx p (xs ++ [a]) = some xs.length := by
  induction xs with
  | nil => simp [listFindIdx, ha]
  | cons b bs ih =>
    simp only [List.cons_append, listFindIdx, h b (List.mem_cons_self b bs)]
    simp [ih (fun x hx => h x (List.mem_cons_of_mem b hx))]

/-- When no element matches, no index is found. -/
theorem listFindIdx_eq_none (p : α → Bool) (xs : List α)
    (h : ∀ x ∈ xs, p x = false) : listFindIdx p xs = none := by
  induction xs with
  | nil => rfl
  | cons b bs ih =>
    simp only [listFindIdx, h b (List.mem_cons_self b bs)]
    simp [ih (fun x hx => h x (List.mem_cons_of_mem b hx))]

/-- Erasing the appended last element restores the original list. -/
theorem eraseIdx_append_last (xs : List α) (a : α) :
    (xs ++ [a]).eraseIdx xs.length = xs := by
  simp [List.eraseIdx_append_of_length_le]

/-- Removing by name from `xs ++ [s]` removes exactly the appended
socket when no earlier socket carries the name. -/
theorem removeOutput_append_last (nm : String) (xs : List Socket) (s : Socket)
    (h : ∀ x ∈ xs, x.name ≠ nm) (hs : s.name = nm) :
    removeOutput nm (xs ++ [s]) = xs := by
  induction xs with
  | nil => simp [removeOutput, hs]
  | cons b bs ih =>
    have hb : (b.name == nm) = false := by
      simp [h b (List.mem_cons_self b bs)]
    simp only [List.cons_append, removeOutput, hb]
    simp [ih (fun x hx => h x (List.mem_cons_of_mem b hx))]

/-- C6: for every layer in sync with its graph (one output per channel)
and every channel name not already present, `add_channel` followed by
`remove_channel` with the same name raises nothing and restores both the
channel list and the node tree — its output-socket set included — to
exactly their state before the add. -/
theorem add_remove_channel_roundtrip (st : LayerStack) (l : MaterialLayer)
    (ch : BasicChannel) (nt : NodeTree)
    (hnt : l.nodeTree = some nt)
    (hsync : nt.outputs.map Socket.name = l.channels.map BasicChannel.name)
    (hnew : ∀ c ∈ l.channels, c.name ≠ ch.name) :
    (addChannel st l ch).err = none ∧
    (removeChannel (addChannel st l ch).layer ch.name).err = none ∧
    (removeChannel (addChannel st l ch).layer ch.name).layer.channels = l.channels ∧
    (removeChannel (addChannel st l ch).layer ch.name).layer.nodeTree = some nt := by
  have hfind : l.channels.find? (fun x => x.name == ch.name) = none :=
    List.find?_eq_none.mpr (fun x hx => by simp [hnew x hx])
  have hout : ∀ s ∈ nt.outputs, s.name ≠ ch.name := by
    intro s hs hEq
    have hmem : s.name ∈ l.channels.map BasicChannel.name := by
      rw [← hsync]; exact List.mem_map_of_mem _ hs
    obtain ⟨c, hc, hcn⟩ := List.mem_map.mp hmem
    exact hnew c hc (hcn.trans hEq)
  have houtIdx : listFindIdx (fun s => s.name == ch.name) nt.outputs = none :=
    listFindIdx_eq_none _ _ (fun s hs => by simp [hout s hs])
  have hadd : addChannel st l ch =
      { layer :=
          { l with
            channels := l.channels ++ [initFromChannel ch],
            nodeTree := some
              { nt with
                outputs := nt.outputs ++
                  [applySocketSettings st ch
                    { name := ch.name, sockType := ch.socketType }] } },
        ret := some (initFromChannel ch), err := none } := by
    simp [addChannel, hfind, hnt, ensureNodeTreeOutput, houtIdx]
  have hidx : listFindIdx (fun x => x.name == ch.name)
      (l.channels ++ [initFromChannel ch]) = some l.channels.length :=
    listFindIdx_append_last _ _ _ (fun x hx => by simp [hnew x hx])
      (by simp [initFromChannel])
  have hsockname : (applySocketSettings st ch
      { name := ch.name, sockType := ch.socketType }).name = ch.name := by
    rw [applySocketSettings_name]
  have hany : (nt.outputs ++ [applySocketSettings st ch
      { name := ch.name, sockType := ch.socketType }]).any
      (fun s => s.name == ch.name) = true := by
    simp [List.any_append, hsockname]
  have hremOut : removeOutput ch.name (nt.outputs ++
      [applySocketSettings st ch { name := ch.name, sockType := ch.socketType }]) =
      nt.outputs :=
    removeOutput_append_last _ _ _ hout hsockname
  rw [hadd]
  simp [removeChannel, hidx, eraseIdx_append_last, hany, hremOut]

/-- Witness for C6: a concrete layer with one channel and matching
output gains and then loses a "Metallic" channel, returning to its
original channel list and node tree. -/
theorem add_remove_channel_roundtrip_witness :
    (addChannel { layers := [] }
      { identifier := "z", name := "Z",
        channels := [{ name := "Base Color", socketType := "RGBA" }],
        nodeTree := some { name := ".Z", outputs := [{ name := "Base Color", sockType := "RGBA" }] } }
      { name := "Metallic", socketType := "FLOAT_FACTOR" }).err = none ∧
    (removeChannel (addChannel { layers := [] }
      { identifier := "z", name := "Z",
        channels := [{ name := "Base Color", socketType := "RGBA" }],
        nodeTree := some { name := ".Z", outputs := [{ name := "Base Color", sockType := "RGBA" }] } }
      { name := "Metallic", socketType := "FLOAT_FACTOR" }).layer "Metallic").layer.channels =
      [{ name := "Base Color", socketType := "RGBA" }] ∧
    (removeChannel (addChannel { layers := [] }
      { identifier := "z", name := "Z",
        channels := [{ name := "Base Color", socketType := "RGBA" }],
        nodeTree := some { name := ".Z", outputs := [{ name := "Base Color", sockType := "RGBA" }] } }
      { name := "Metallic", socketType := "FLOAT_FACTOR" }).layer "Metallic").layer.nodeTree =
      some { name := ".Z", outputs := [{ name := "Base Color", sockType := "RGBA" }] } := by
  have h := add_remove_channel_roundtrip { layers := [] }
    { identifier := "z", name := "Z",
      channels := [{ name := "Base Color", socketType := "RGBA" }],
      nodeTree := some { name := ".Z", outputs := [{ name := "Base Color", sockType := "RGBA" }] } }
    { name := "Metallic", socketType := "FLOAT_FACTOR" }
    { name := ".Z", outputs := [{ name := "Base Color", sockType := "RGBA" }] }
    rfl rfl (by decide)
  exact ⟨h.1, h.2.2.1, h.2.2.2⟩

/-- A slot modification that keeps the active index keeps every
tracked index. -/
theorem activesAt_modify (st : LayerStack) (i k : Nat)
    (f : MaterialLayer → MaterialLayer)
    (hf : ∀ l, (f l).activeChannelIndex = l.activeChannelIndex) :
    activesAt (modifyLayer st i f) k = activesAt st k := by
  by_cases h : k = i
  · subst h
    simp only [activesAt, modifyLayer, listModify_getElem_self]
    cases st.layers[k]? <;> simp [hf]
  · simp [activesAt, modifyLayer, listModify_getElem_ne _ _ _ h]

/-- The name-update callback never touches the active index. -/
theorem activesAt_updateName (st : LayerStack) (i k : Nat) :
    activesAt (updateNameAt st i) k = activesAt st k := by
  unfold updateNameAt
  cases h : st.layers[i]? with
  | none => rfl
  | some self =>
    dsimp only
    split <;>
      exact activesAt_modify _ _ _ _ (fun l => by cases l.nodeTree <;> rfl)

/-- Assigning a layer name never touches the active index. -/
theorem activesAt_setName (st : LayerStack) (i k : Nat) (n : String) :
    activesAt (setNameAt st i n) k = activesAt st k := by
  unfold setNameAt
  rw [activesAt_updateName]
  exact activesAt_modify _ _ _ _ (fun l => rfl)

/-- `add_channel` never changes the active index of its layer. -/
theorem addChannel_active (st : LayerStack) (l : MaterialLayer) (ch : BasicChannel) :
    (addChannel st l ch).layer.activeChannelIndex = l.activeChannelIndex := by
  unfold addChannel
  cases l.channels.find? (fun x => x.name == ch.name) with
  | some existing => rfl
  | none => cases l.nodeTree <;> rfl

/-- `add_channel` at a slot never changes any tracked active index. -/
theorem activesAt_addChannelAt (st : LayerStack) (i k : Nat) (ch : BasicChannel) :
    activesAt (addChannelAt st i ch).stack k = activesAt st k := by
  unfold addChannelAt
  cases h : st.layers[i]? with
  | none => rfl
  | some l =>
    dsimp only
    by_cases hk : k = i
    · subst hk
      simp [activesAt, modifyLayer, listModify_getElem_self, h, addChannel_active]
    · simp [activesAt, modifyLayer, listModify_getElem_ne _ _ _ hk]

/-- The channel loop of `initialize` never changes any tracked active
index. -/
theorem activesAt_initChannelsLoop (i : Nat) :
    ∀ (chs : List BasicChannel) (st : LayerStack) (eo : Bool) (k : Nat),
      activesAt (initChannelsLoop i st chs eo).stack k = activesAt st k := by
  intro chs
  induction chs with
  | nil => intro st eo k; rfl
  | cons ch rest ih =>
    intro st eo k
    unfold initChannelsLoop
    by_cases hen : (ch.enabled || !eo) = true
    · simp only [hen, if_pos]
      cases herr : (addChannelAt st i ch).err with
      | some e => simpa [activesAt_addChannelAt] using (activesAt_addChannelAt st i k ch)
      | none => simp [herr, ih, activesAt_addChannelAt]
    · simp only [hen]
      simp [ih]

/-- `remove_channel` on a layer whose active index is 0 leaves it 0
(the clamp can only keep it at the lower bound). -/
theorem removeChannel_active_zero (l : MaterialLayer) (n : String)
    (h : l.activeChannelIndex = 0) :
    (removeChannel l n).layer.activeChannelIndex = 0 := by
  unfold removeChannel
  cases hidx : listFindIdx (fun x => x.name == n) l.channels with
  | none => simpa using h
  | some j =>
    dsimp only
    cases l.nodeTree with
    | none => simpa using h
    | some nt =>
      dsimp only
      rw [h]
      simp only [Nat.cast_zero]
      have hj2 : ¬((j : Int) < 0) := by omega
      rw [if_neg hj2, max_eq_right (min_le_left _ _)]
      rfl

/-- Assigning a name to the slot at `i` only renames that layer (and
its node tree); every other slot is untouched. -/
theorem setNameAt_shape (st : LayerStack) (i : Nat) (n : String)
    (L : MaterialLayer) (h : st.layers[i]? = some L) :
    ∃ u, (setNameAt st i n).layers[i]? = some (renameLayer L u) ∧
      ∀ j, j ≠ i → (setNameAt st i n).layers[j]? = st.layers[j]? := by
  have hA : (modifyLayer st i (fun l => { l with name := n })).layers[i]? =
      some { L with name := n } := by
    simp [modifyLayer, listModify_getElem_self, h]
  unfold setNameAt updateNameAt
  rw [hA]
  dsimp only
  split
  · refine ⟨getUniqueName (modifyLayer st i (fun l => { l with name := n })).layers
      { L with name := n }, ?_, ?_⟩
    · simp only [modifyLayer, listModify_getElem_self, listModify_getElem_self, h]
      cases L.nodeTree <;> rfl
    · intro j hj
      simp [modifyLayer, listModify_getElem_ne _ _ _ hj]
  · refine ⟨n, ?_, ?_⟩
    · simp only [modifyLayer, listModify_getElem_self, h]
      cases L.nodeTree <;> rfl
    · intro j hj
      simp [modifyLayer, listModify_getElem_ne _ _ _ hj]

/-- `clear_channels`' removal loop keeps a zero active index at zero. -/
theorem clearChannelsGo_active_zero :
    ∀ (names : List String) (l : MaterialLayer), l.activeChannelIndex = 0 →
      (clearChannelsGo names l).layer.activeChannelIndex = 0 := by
  intro names
  induction names with
  | nil => intro l h; exact h
  | cons n rest ih =>
    intro l h
    unfold clearChannelsGo
    cases herr : (removeChannel l n).err with
    | some e => simpa [herr] using removeChannel_active_zero l n h
    | none => simp [herr, ih _ (removeChannel_active_zero l n h)]

/-- `remove_channel` at a slot keeps a zero active index at zero. -/
theorem activesAt_removeChannelAt_zero (st : LayerStack) (i : Nat) (n : String)
    (h : activesAt st i = some 0) :
    activesAt (removeChannelAt st i n).stack i = some 0 := by
  unfold removeChannelAt
  cases hgl : st.layers[i]? with
  | none => exact h
  | some l =>
    have hl0 : l.activeChannelIndex = 0 := by
      simpa [activesAt, hgl] using h
    dsimp only
    simp [activesAt, modifyLayer, listModify_getElem_self, hgl,
      removeChannel_active_zero l n hl0]

/-- `clear_channels` at a slot keeps a zero active index at zero. -/
theorem activesAt_clearChannelsAt_zero (st : LayerStack) (i : Nat)
    (h : activesAt st i = some 0) :
    activesAt (clearChannelsAt st i).stack i = some 0 := by
  unfold clearChannelsAt
  cases hgl : st.layers[i]? with
  | none => exact h
  | some l =>
    have hl0 : l.activeChannelIndex = 0 := by
      simpa [activesAt, hgl] using h
    dsimp only
    simp [activesAt, modifyLayer, listModify_getElem_self, hgl, clearChannels,
      clearChannelsGo_active_zero _ l hl0]

/-- The child-deletion loop preserves every tracked active index as
long as each recursive deletion does. -/
theorem activesAt_deleteChildrenGo (rec : LayerStack → Nat → StackOpResult)
    (hrec : ∀ s j k, activesAt (rec s j).stack k = activesAt s k) :
    ∀ (refs : List MaterialLayerRef) (st : LayerStack) (k : Nat),
      activesAt (deleteChildrenGo rec st refs).stack k = activesAt st k := by
  intro refs
  induction refs with
  | nil => intro st k; rfl
  | cons r rest ih =>
    intro st k
    unfold deleteChildrenGo
    by_cases hr : r.name = ""
    · simp [hr]
    · rw [if_neg hr]
      cases hfind : listFindIdx (fun x => x.identifier == r.name) st.layers with
      | none => rfl
      | some j =>
        dsimp only
        cases herr : (rec st j).err with
        | some e => simp [herr, hrec]
        | none => simp [herr, ih, hrec]

/-- The conditional image deallocation preserves every tracked active
index. -/
theorem activesAt_imageStep (s : LayerStack) (i k : Nat) :
    activesAt (match s.layers[i]? with
      | some l => if l.image ≠ none then modifyLayer s i deallocateLayerImage else s
      | none => s) k = activesAt s k := by
  cases s.layers[i]? with
  | none => rfl
  | some l =>
    dsimp only
    split
    · exact activesAt_modify _ _ _ _ (fun l => rfl)
    · rfl

/-- `delete` preserves every layer's active index (at every slot: the
layer's own and, through the recursive child deletions, everyone
else's). -/
theorem activesAt_deleteAt :
    ∀ (fuel : Nat) (st : LayerStack) (i k : Nat),
      activesAt (deleteAt st i fuel).stack k = activesAt st k := by
  intro fuel
  induction fuel with
  | zero => intro st i k; rfl
  | succ fuel ih =>
    intro st i k
    have e1 := fun (s : LayerStack) =>
      activesAt_modify s i k (fun l => { l with identifier := "" }) (fun l => rfl)
    have e2 := fun (s : LayerStack) =>
      activesAt_modify s i k (fun l => { l with parent := {} }) (fun l => rfl)
    have e3 := fun (s : LayerStack) => activesAt_modify s i k freeBake (fun l => rfl)
    have e5 := fun (s : LayerStack) =>
      activesAt_modify s i k (fun l => { l with children := [] }) (fun l => rfl)
    have e6 := fun (s : LayerStack) =>
      activesAt_modify s i k (fun l => { l with channels := [] }) (fun l => rfl)
    have e7 := fun (s : LayerStack) =>
      activesAt_modify s i k (fun l =>
        match l.nodeTree with
        | some _ => { l with nodeTree := none }
        | none => l) (fun l => by cases hnt : l.nodeTree <;> simp [hnt])
    have e8 := fun (s : LayerStack) =>
      activesAt_modify s i k (fun l => { l with nodeMask := none }) (fun l => rfl)
    have e9 := fun (s : LayerStack) =>
      activesAt_modify s i k deletePreviewMaterial (fun l => rfl)
    have ego := activesAt_deleteChildrenGo (fun s j => deleteAt s j fuel)
      (fun s j k2 => ih s j k2)
    unfold deleteAt
    cases h : st.layers[i]? with
    | none => rfl
    | some self =>
      dsimp only
      by_cases hinit : isInitialized self = true
      · rw [if_neg (by simp [hinit])]
        split
        · dsimp only
          rw [ego, activesAt_imageStep, e3, e2, e1]
        · dsimp only
          rw [activesAt_setName, e9, e8, e7, e6, e5, ego, activesAt_imageStep,
            e3, e2, e1]
      · have : isInitialized self = false := by
          cases hb : isInitialized self
          · rfl
          · exact absurd hb hinit
        rw [if_pos (by simp [this])]

/-- `initialize` keeps a zero active index at zero: its failure paths
leave the stack untouched and its success path explicitly resets the
index to 0 before any step that could observe it. -/
theorem activesAt_initializeAt_zero (st : LayerStack) (i : Nat) (hs : Bool)
    (nm lt : String) (chs : Option (List BasicChannel)) (eo sp : Bool)
    (h : activesAt st i = some 0) :
    activesAt (initializeAt st i hs nm lt chs eo sp).stack i = some 0 := by
  have etree := fun (s : LayerStack) =>
    activesAt_modify s i i (fun l => { l with nodeTree := some { name := "." ++ l.name } })
      (fun l => rfl)
  have enodes := fun (s : LayerStack) =>
    activesAt_modify s i i (fun l => { l with nodeTree := l.nodeTree.map (fun nt =>
      { nt with nodes := nt.nodes ++ ["layer_output"] }) }) (fun l => rfl)
  have ealloc := fun (s : LayerStack) =>
    activesAt_modify s i i allocateImageToLayer (fun l => rfl)
  have eprev := fun (s : LayerStack) =>
    activesAt_modify s i i (fun l =>
      match l.nodeTree with
      | none => l
      | some _ => createPreviewMaterial l)
      (fun l => by
        cases hnt : l.nodeTree
        · simp [hnt]
        · simp only [hnt, createPreviewMaterial]
          cases hp : l.previewMaterial <;> simp [hp])
  unfold initializeAt
  cases hgl : st.layers[i]? with
  | none => exact h
  | some self =>
    dsimp only
    cases hs with
    | false => exact h
    | true =>
      by_cases h2 : isInitialized self = true
      · simp only [Bool.not_true, Bool.false_eq_true, if_false, if_pos h2]
        exact h
      · have h2' : ¬(isInitialized self = true) := h2
        by_cases h3 : lt ∉ VALID_LAYER_TYPES
        · simp only [Bool.not_true, Bool.false_eq_true, if_false, if_neg h2', if_pos h3]
          exact h
        · simp only [Bool.not_true, Bool.false_eq_true, if_false, if_neg h2', if_neg h3]
          have hA : (modifyLayer st i (fun l =>
              { l with identifier := allocUniqueId (st.layers.map (·.identifier)) })).layers[i]? =
              some { self with identifier := allocUniqueId (st.layers.map (·.identifier)) } := by
            simp [modifyLayer, listModify_getElem_self, hgl]
          obtain ⟨u, hB, _⟩ := setNameAt_shape _ i nm _ hA
          have hC : activesAt (modifyLayer (setNameAt (modifyLayer st i (fun l =>
              { l with identifier := allocUniqueId (st.layers.map (·.identifier)) })) i nm) i
              (fun l =>
                { l with
                  layerType := lt, enabled := true, opacity := 1,
                  activeChannelIndex := 0 })) i = some 0 := by
            have hgen : ∀ (s : LayerStack) (L : MaterialLayer), s.layers[i]? = some L →
                activesAt (modifyLayer s i (fun l =>
                  { l with
                    layerType := lt, enabled := true, opacity := 1,
                    activeChannelIndex := 0 })) i = some 0 := by
              intro s L hL
              simp [activesAt, modifyLayer, listModify_getElem_self, hL]
            exact hgen _ _ hB
          cases chs with
          | none =>
            dsimp only
            split
            · split
              · rw [eprev, ealloc, enodes, etree]; exact hC
              · rw [eprev, enodes, etree]; exact hC
            · split
              · rw [ealloc, enodes, etree]; exact hC
              · rw [enodes, etree]; exact hC
          | some chlist =>
            dsimp only
            split
            · rw [activesAt_initChannelsLoop, etree]; exact hC
            · split
              · split
                · rw [eprev, ealloc, enodes, activesAt_initChannelsLoop, etree]; exact hC
                · rw [eprev, enodes, activesAt_initChannelsLoop, etree]; exact hC
              · split
                · rw [ealloc, enodes, activesAt_initChannelsLoop, etree]; exact hC
                · rw [enodes, activesAt_initChannelsLoop, etree]; exact hC

/-- Every public operation keeps a zero active index at zero. -/
theorem applyOp_active_zero (st : LayerStack) (i : Nat) (op : LayerOp)
    (h : activesAt st i = some 0) :
    activesAt (applyOp st i op) i = some 0 := by
  cases op with
  | initOp hs nm lt chs eo sp => exact activesAt_initializeAt_zero st i hs nm lt chs eo sp h
  | addOp ch => rw [applyOp, activesAt_addChannelAt]; exact h
  | removeOp n => exact activesAt_removeChannelAt_zero st i n h
  | clearOp => exact activesAt_clearChannelsAt_zero st i h
  | deleteOp fuel => rw [applyOp, activesAt_deleteAt]; exact h

/-- Any sequence of public operations keeps a zero active index at
zero. -/
theorem runOps_active_zero (ops : List LayerOp) :
    ∀ (st : LayerStack) (i : Nat), activesAt st i = some 0 →
      activesAt (runOps st i ops) i = some 0 := by
  induction ops with
  | nil => intro st i h; exact h
  | cons op rest ih =>
    intro st i h
    exact ih (applyOp st i op) i (applyOp_active_zero st i op h)

/-- C8: starting from a layer whose active channel index is at its
default 0, after any sequence of the public operations (`initialize`,
`add_channel`, `remove_channel`, `clear_channels`, `delete`) the index
lies in `[0, len(channels) - 1]` when channels is non-empty and equals
0 when channels is empty; and `remove_channel` computes the new index by
shifting left by one when the removed index preceded it and clamping
into the new bounds. -/
theorem active_channel_index_in_bounds :
    (∀ (st : LayerStack) (i : Nat) (ops : List LayerOp) (l l2 : MaterialLayer),
      st.layers[i]? = some l → l.activeChannelIndex = 0 →
      (runOps st i ops).layers[i]? = some l2 →
      (l2.channels = [] → l2.activeChannelIndex = 0) ∧
      (l2.channels ≠ [] → l2.activeChannelIndex < l2.channels.length)) ∧
    (∀ (l : MaterialLayer) (n : String) (j : Nat) (nt : NodeTree),
      listFindIdx (fun x => x.name == n) l.channels = some j →
      l.nodeTree = some nt →
      (removeChannel l n).layer.activeChannelIndex =
        (max (min (if (j : Int) < (l.activeChannelIndex : Int) then
            (l.activeChannelIndex : Int) - 1 else (l.activeChannelIndex : Int))
          (((l.channels.eraseIdx j).length : Int) - 1)) 0).toNat) := by
  constructor
  · intro st i ops l l2 hl h0 hl2
    have hz : activesAt (runOps st i ops) i = some 0 :=
      runOps_active_zero ops st i (by simp [activesAt, hl, h0])
    have h20 : l2.activeChannelIndex = 0 := by
      simpa [activesAt, hl2] using hz
    refine ⟨fun _ => h20, fun hne => ?_⟩
    rw [h20]
    cases hch : l2.channels with
    | nil => exact absurd hch hne
    | cons a as => simp
  · intro l n j nt hidx hnt
    unfold removeChannel
    rw [hidx]
    dsimp only
    rw [hnt]

/-- Witness for C8: a concrete layer put through add "A", add "B",
remove "A" ends with one channel and its active index strictly within
bounds. -/
theorem active_channel_index_in_bounds_witness :
    ({ name := "W", identifier := "w", channels := [{ name := "B" }],
       nodeTree := some { name := ".W", outputs := [{ name := "B", sockType := "FLOAT" }] } }
      : MaterialLayer).activeChannelIndex <
    ({ name := "W", identifier := "w", channels := [{ name := "B" }],
       nodeTree := some { name := ".W", outputs := [{ name := "B", sockType := "FLOAT" }] } }
      : MaterialLayer).channels.length :=
  (active_channel_index_in_bounds.1
    { layers := [{ identifier := "w", name := "W", nodeTree := some { name := ".W" } }] } 0
    [LayerOp.addOp { name := "A" }, LayerOp.addOp { name := "B" }, LayerOp.removeOp "A"]
    { identifier := "w", name := "W", nodeTree := some { name := ".W" } }
    { name := "W", identifier := "w", channels := [{ name := "B" }],
      nodeTree := some { name := ".W", outputs := [{ name := "B", sockType := "FLOAT" }] } }
    rfl rfl rfl).2 (by decide)

/-- Every list member sits at some index. -/
theorem exists_getElem_of_mem {l : List α} {a : α} (h : a ∈ l) :
    ∃ i : Nat, l[i]? = some a := by
  obtain ⟨i, hi, rfl⟩ := List.getElem_of_mem h
  exact ⟨i, by simp [List.getElem?_eq_getElem, hi]⟩

/-- Clearing the name of the (already identifier-less) layer at slot
`i` sticks when no other slot pairs an empty name with a non-empty
identifier: the collision scan requires an initialized holder, so the
empty name is kept and, with the node tree already destroyed, nothing
else changes. -/
theorem setName_empty_noop (s : LayerStack) (i : Nat) (L : MaterialLayer)
    (hL : s.layers[i]? = some L) (hLnt : L.nodeTree = none)
    (hnm : ∀ x ∈ s.layers, x.name = "" → x.identifier = "") :
    (setNameAt s i "").layers[i]? = some { L with name := "" } := by
  have hA : (modifyLayer s i (fun l => { l with name := "" })).layers[i]? =
      some { L with name := "" } := by
    simp [modifyLayer, listModify_getElem_self, hL]
  have hfind : (modifyLayer s i (fun l => { l with name := "" })).layers.find? (fun x =>
      x.name == ({ L with name := "" } : MaterialLayer).name &&
      !(layerEq { L with name := "" } x) && isInitialized x) = none := by
    apply List.find?_eq_none.mpr
    intro x hx
    rcases mem_listModify hx with hx0 | ⟨y, hy, rfl⟩
    · by_cases hxn : x.name = ""
      · have hid : x.identifier = "" := hnm x hx0 hxn
        simp [isInitialized, hid]
      · simp [hxn]
    · rw [hL] at hy
      cases hy
      simp [layerEq]
  have hGUN : getUniqueName (modifyLayer s i (fun l => { l with name := "" })).layers
      { L with name := "" } = ({ L with name := "" } : MaterialLayer).name := by
    simp [getUniqueName, hfind]
  unfold setNameAt updateNameAt
  rw [hA]
  dsimp only
  rw [if_neg (fun hc => hc hGUN)]
  simp [modifyLayer, listModify_getElem_self, hA, hLnt]
  exact ⟨L, by simpa [modifyLayer] using hL, by simp [hLnt]⟩

/-- C1 (amended): `delete` on an initialized, childless layer raises
nothing and returns the slot to the canonical cleared state — identifier
and name emptied, channels cleared, parent unset, image binding reset to
`(null, -1)`, node tree, node mask and preview destroyed, baked flag
cleared — while `enabled`, `opacity`, `layer_type` and
`active_channel_index` retain their current (post-initialize) values
rather than their pre-initialize ones. -/
theorem delete_resets_layer (st : LayerStack) (i : Nat) (l : MaterialLayer)
    (fuel : Nat) (hl : st.layers[i]? = some l)
    (hinit : isInitialized l = true) (hch : l.children = [])
    (himg : l.image = none → l.imageChannel = -1)
    (hnames : ∀ x ∈ st.layers, isInitialized x = true → x.name ≠ "") :
    (deleteAt st i (fuel + 1)).err = none ∧
    (deleteAt st i (fuel + 1)).stack.layers[i]? = some
      { name := "", identifier := "", enabled := l.enabled, opacity := l.opacity,
        layerType := l.layerType, channels := [],
        activeChannelIndex := l.activeChannelIndex, previewMaterial := none,
        nodeTree := none, nodeMask := none, image := none, imageChannel := -1,
        isBaked := false, parent := {}, children := [] } := by
  unfold deleteAt
  rw [hl]
  dsimp only
  rw [if_neg (by simp [hinit])]
  set s1 := modifyLayer st i (fun l => { l with identifier := "" }) with hs1
  set s2 := modifyLayer s1 i (fun l => { l with parent := {} }) with hs2
  set s3 := modifyLayer s2 i freeBake with hs3
  have h1 : s1.layers[i]? = some { l with identifier := "" } := by
    rw [hs1]; simp [modifyLayer, listModify_getElem_self, hl]
  have h2 : s2.layers[i]? = some { l with identifier := "", parent := {} } := by
    rw [hs2]; simp [modifyLayer, listModify_getElem_self, h1]
  have h3 : s3.layers[i]? = some
      { l with
        identifier := "", parent := {},
        channels := l.channels.map (fun ch =>
          if ch.isBaked = true then { ch with isBaked := false } else ch),
        isBaked := false } := by
    rw [hs3]; simp [modifyLayer, listModify_getElem_self, h2, freeBake]
  have ho3 : ∀ j, j ≠ i → s3.layers[j]? = st.layers[j]? := by
    intro j hj
    rw [hs3, hs2, hs1]
    simp [modifyLayer, listModify_getElem_ne _ _ _ hj]
  rw [h3]
  dsimp only
  cases himage : l.image with
  | some img =>
    rw [if_pos (by simp [himage])]
    set s4 := modifyLayer s3 i deallocateLayerImage with hs4
    have h4 : s4.layers[i]? = some
        { l with
          identifier := "", parent := {},
          channels := l.channels.map (fun ch =>
            if ch.isBaked = true then { ch with isBaked := false } else ch),
          isBaked := false, image := none, imageChannel := -1 } := by
      rw [hs4]; simp [modifyLayer, listModify_getElem_self, h3, deallocateLayerImage]
    have ho4 : ∀ j, j ≠ i → s4.layers[j]? = st.layers[j]? := by
      intro j hj
      rw [hs4]
      simp only [modifyLayer, listModify_getElem_ne _ _ _ hj]
      exact ho3 j hj
    rw [show ((Option.map (fun x => x.children) s4.layers[i]?).getD []) = [] from by
      rw [h4]; simp [hch]]
    simp only [deleteChildrenGo]
    set s5 := modifyLayer s4 i (fun l => { l with children := [] }) with hs5
    set s6 := modifyLayer s5 i (fun l => { l with channels := [] }) with hs6
    set s7 := modifyLayer s6 i (fun l =>
      match l.nodeTree with
      | some _ => { l with nodeTree := none }
      | none => l) with hs7
    set s8 := modifyLayer s7 i (fun l => { l with nodeMask := none }) with hs8
    set s9 := modifyLayer s8 i deletePreviewMaterial with hs9
    have h5 : s5.layers[i]? = some
        { l with
          identifier := "", parent := {},
          channels := l.channels.map (fun ch =>
            if ch.isBaked = true then { ch with isBaked := false } else ch),
          isBaked := false, image := none, imageChannel := -1, children := [] } := by
      rw [hs5]; simp [modifyLayer, listModify_getElem_self, h4]
    have h6 : s6.layers[i]? = some
        { l with
          identifier := "", parent := {}, channels := [],
          isBaked := false, image := none, imageChannel := -1, children := [] } := by
      rw [hs6]; simp [modifyLayer, listModify_getElem_self, h5]
    have h7 : s7.layers[i]? = some
        { l with
          identifier := "", parent := {}, channels := [],
          isBaked := false, image := none, imageChannel := -1, children := [],
          nodeTree := none } := by
      rw [hs7]
      simp only [modifyLayer, listModify_getElem_self, h6, Option.map_some]
      cases hnt : l.nodeTree <;> simp [hnt]
    have h8 : s8.layers[i]? = some
        { l with
          identifier := "", parent := {}, channels := [],
          isBaked := false, image := none, imageChannel := -1, children := [],
          nodeTree := none, nodeMask := none } := by
      rw [hs8]; simp [modifyLayer, listModify_getElem_self, h7]
    have h9 : s9.layers[i]? = some
        { l with
          identifier := "", parent := {}, channels := [],
          isBaked := false, image := none, imageChannel := -1, children := [],
          nodeTree := none, nodeMask := none, previewMaterial := none } := by
      rw [hs9]; simp [modifyLayer, listModify_getElem_self, h8, deletePreviewMaterial]
    have ho9 : ∀ j, j ≠ i → s9.layers[j]? = st.layers[j]? := by
      intro j hj
      rw [hs9, hs8, hs7, hs6, hs5]
      simp only [modifyLayer, listModify_getElem_ne _ _ _ hj]
      exact ho4 j hj
    have hnm9 : ∀ x ∈ s9.layers, x.name = "" → x.identifier = "" := by
      intro x hx hxname
      obtain ⟨j, hj⟩ := exists_getElem_of_mem hx
      by_cases hji : j = i
      · subst hji
        rw [h9] at hj
        cases hj
        rfl
      · rw [ho9 j hji] at hj
        have hxm : x ∈ st.layers := by
          obtain ⟨hlt, rfl⟩ := List.getElem?_eq_some_iff.mp hj
          exact List.getElem_mem hlt
        by_cases hin : isInitialized x = true
        · exact absurd hxname (hnames x hxm hin)
        · simpa [isInitialized] using hin
    refine ⟨trivial, ?_⟩
    rw [setName_empty_noop s9 i _ h9 rfl hnm9]
  | none =>
    rw [if_neg (by simp [himage])]
    rw [show ((Option.map (fun x => x.children) s3.layers[i]?).getD []) = [] from by
      rw [h3]; simp [hch]]
    simp only [deleteChildrenGo]
    set s5 := modifyLayer s3 i (fun l => { l with children := [] }) with hs5
    set s6 := modifyLayer s5 i (fun l => { l with channels := [] }) with hs6
    set s7 := modifyLayer s6 i (fun l =>
      match l.nodeTree with
      | some _ => { l with nodeTree := none }
      | none => l) with hs7
    set s8 := modifyLayer s7 i (fun l => { l with nodeMask := none }) with hs8
    set s9 := modifyLayer s8 i deletePreviewMaterial with hs9
    have h5 : s5.layers[i]? = some
        { l with
          identifier := "", parent := {},
          channels := l.channels.map (fun ch =>
            if ch.isBaked = true then { ch with isBaked := false } else ch),
          isBaked := false, children := [] } := by
      rw [hs5]; simp [modifyLayer, listModify_getElem_self, h3]
    have h6 : s6.layers[i]? = some
        { l with
          identifier := "", parent := {}, channels := [],
          isBaked := false, children := [] } := by
      rw [hs6]; simp [modifyLayer, listModify_getElem_self, h5]
    have h7 : s7.layers[i]? = some
        { l with
          identifier := "", parent := {}, channels := [],
          isBaked := false, children := [], nodeTree := none } := by
      rw [hs7]
      simp only [modifyLayer, listModify_getElem_self, h6, Option.map_some]
      cases hnt : l.nodeTree <;> simp [hnt]
    have h8 : s8.layers[i]? = some
        { l with
          identifier := "", parent := {}, channels := [],
          isBaked := false, children := [], nodeTree := none, nodeMask := none } := by
      rw [hs8]; simp [modifyLayer, listModify_getElem_self, h7]
    have h9 : s9.layers[i]? = some
        { l with
          identifier := "", parent := {}, channels := [],
          isBaked := false, children := [], nodeTree := none, nodeMask := none,
          previewMaterial := none } := by
      rw [hs9]; simp [modifyLayer, listModify_getElem_self, h8, deletePreviewMaterial]
    have ho9 : ∀ j, j ≠ i → s9.layers[j]? = st.layers[j]? := by
      intro j hj
      rw [hs9, hs8, hs7, hs6, hs5]
      simp only [modifyLayer, listModify_getElem_ne _ _ _ hj]
      exact ho3 j hj
    have hnm9 : ∀ x ∈ s9.layers, x.name = "" → x.identifier = "" := by
      intro x hx hxname
      obtain ⟨j, hj⟩ := exists_getElem_of_mem hx
      by_cases hji : j = i
      · subst hji
        rw [h9] at hj
        cases hj
        rfl
      · rw [ho9 j hji] at hj
        have hxm : x ∈ st.layers := by
          obtain ⟨hlt, rfl⟩ := List.getElem?_eq_some_iff.mp hj
          exact List.getElem_mem hlt
        by_cases hin : isInitialized x = true
        · exact absurd hxname (hnames x hxm hin)
        · simpa [isInitialized] using hin
    refine ⟨trivial, ?_⟩
    rw [setName_empty_noop s9 i _ h9 rfl hnm9]
    simp [himage, himg himage]

/-- C1 counterexample: a fresh slot (whose pre-initialize `layer_type`
is the default MATERIAL_PAINT) initialized as MATERIAL_FILL and then
deleted keeps `layer_type = MATERIAL_FILL`; the deleted layer is not
byte-for-byte the pre-initialize state. -/
theorem delete_not_byte_for_byte_restore :
    freshStack.layers[0]? = some freshLayer ∧
    freshLayer.layerType = "MATERIAL_PAINT" ∧
    ((deleteAt (initializeAt freshStack 0 true "L" "MATERIAL_FILL" none true
        false).stack 0 5).stack.layers[0]?).map (·.layerType) =
      some "MATERIAL_FILL" ∧
    ("MATERIAL_FILL" : String) ≠ "MATERIAL_PAINT" :=
  ⟨rfl, rfl, rfl, by decide⟩

/-- Witness for C1's amended theorem: the concrete
initialize-then-delete sequence on a fresh slot ends in the canonical
cleared state with the initialized layer type retained. -/
theorem delete_resets_layer_witness :
    (deleteAt (initializeAt freshStack 0 true "L" "MATERIAL_FILL" none true
      false).stack 0 5).stack.layers[0]? =
    some { name := "", identifier := "", layerType := "MATERIAL_FILL" } :=
  (delete_resets_layer
    (initializeAt freshStack 0 true "L" "MATERIAL_FILL" none true false).stack 0
    { name := "L", identifier := "id0", layerType := "MATERIAL_FILL",
      nodeTree := some { name := ".L", nodes := ["layer_output"] } } 4
    rfl rfl rfl (fun _ => rfl) (by decide)).2
